import Mathlib

/-!
Shallow embedding of the cpi-sync package selection resolver, credential
resolution, catalog-driven sync pipeline and zip extraction path handling
(src/main.rs), together with proofs of the specified properties.

Rust's `HashSet<String>` is modelled as `Finset String`, `HashMap<String,
String>` lookups as `String → Option String`, fallible operations as
`Except`/`Option`.
-/

deriving instance DecidableEq for Except

namespace CpiSync

/-- `OperationEnum` from main.rs: include / exclude. -/
inductive OperationEnum
  | Include
  | Exclude
  deriving DecidableEq, Repr

/-- `PackageSingle` rule: an exact package id and an operation. -/
structure PackageSingle where
  id : String
  operation : OperationEnum
  deriving DecidableEq, Repr

/-- `PackageRegex` rule: a regex pattern and an operation. -/
structure PackageRegex where
  operation : OperationEnum
  pattern : String
  deriving DecidableEq, Repr

/-- `PackageRuleEnum` from main.rs: tagged union of regex and single rules. -/
inductive PackageRuleEnum
  | Regex (rule : PackageRegex)
  | Single (rule : PackageSingle)
  deriving DecidableEq, Repr

/-! ### Regex model

The source uses the `regex` crate (`Regex::new` + `is_match`, an unanchored
substring search).  We model the fragment of its syntax actually relevant to
the specification: literal characters, `.` (any char except newline), a
postfix `*`, and an optional leading `^` anchor.  Patterns using syntax
outside this fragment are conservatively rejected by the model compiler
(`regexNew` returns `none`); all theorems about regex rules are stated for
patterns the model compiles. -/

/-- One compiled regex item of the modelled fragment. -/
inductive RItem
  | CharI (c : Char)
  | DotI
  | StarChar (c : Char)
  | StarDot
  deriving DecidableEq, Repr

/-- A compiled regex of the modelled fragment: optional `^` anchor plus a
sequence of items. -/
structure CRegex where
  anchored : Bool
  items : List RItem
  deriving DecidableEq, Repr

/-- Metacharacters of the regex crate that the model does not implement;
patterns containing them fail model compilation. -/
def isUnsupportedMeta (c : Char) : Bool :=
  c = '(' || c = ')' || c = '[' || c = ']' || c = '|' || c = '+' ||
  c = '?' || c = '$' || c = '\\' || c = Char.ofNat 123 || c = Char.ofNat 125

/-- Parse the body of a pattern (after the optional anchor) into items. -/
def parseItems : List Char → Option (List RItem)
  | [] => some []
  | c :: '*' :: rest2 =>
    if isUnsupportedMeta c || c = '*' || c = '^' then none
    else
      match parseItems rest2 with
      | none => none
      | some items =>
        some ((if c = '.' then RItem.StarDot else RItem.StarChar c) :: items)
  | c :: rest =>
    if isUnsupportedMeta c || c = '*' || c = '^' then none
    else
      match parseItems rest with
      | none => none
      | some items =>
        some ((if c = '.' then RItem.DotI else RItem.CharI c) :: items)

/-- Model of `Regex::new`: compile a pattern of the supported fragment;
`none` models a compilation failure (`InvalidPattern`). -/
def regexNew (pattern : String) : Option CRegex :=
  match pattern.data with
  | '^' :: rest => (parseItems rest).map (fun items => ⟨true, items⟩)
  | cs => (parseItems cs).map (fun items => ⟨false, items⟩)

/-- Match a sequence of items against a prefix of the character list
(the rest of the string may be arbitrary, as `is_match` searches for a
match, not a full-string match). -/
def matchItems : List RItem → List Char → Bool
  | [], _ => true
  | RItem.CharI _ :: _, [] => false
  | RItem.CharI c :: ps, x :: xs => x == c && matchItems ps xs
  | RItem.DotI :: _, [] => false
  | RItem.DotI :: ps, x :: xs => x != '\n' && matchItems ps xs
  | RItem.StarChar _ :: ps, [] => matchItems ps []
  | RItem.StarChar c :: ps, x :: xs =>
    matchItems ps (x :: xs) || (x == c && matchItems (RItem.StarChar c :: ps) xs)
  | RItem.StarDot :: ps, [] => matchItems ps []
  | RItem.StarDot :: ps, x :: xs =>
    matchItems ps (x :: xs) || (x != '\n' && matchItems (RItem.StarDot :: ps) xs)
  termination_by ps cs => (cs.length, ps.length)

/-- Unanchored search: try to match at every start position. -/
def searchFrom (ps : List RItem) : List Char → Bool
  | [] => matchItems ps []
  | x :: xs => matchItems ps (x :: xs) || searchFrom ps xs

/-- Model of `Regex::is_match`. -/
def isMatch (re : CRegex) (s : String) : Bool :=
  if re.anchored then matchItems re.items s.data else searchFrom re.items s.data

/-- The subset of the catalog matched by a compiled regex
(`rule_package_set` in main.rs: iterate `api_package_set`, keep matches). -/
def regexMatched (re : CRegex) (catalog : Finset String) : Finset String :=
  catalog.filter (fun p => isMatch re p = true)

/-! ### Package selection resolver -/

/-- Errors of the resolution phase (spec taxonomy names; the source surfaces
them as `io::Error` values with messages).  `UnknownPackageId` carries the
identifier and the result of the diagnostic display-name-index lookup
(`api_package_name_map.get(&rule.id)` in main.rs). -/
inductive ResolveError
  | InvalidPattern
  | UnknownPackageId (id : String) (suggestion : Option String)
  deriving DecidableEq, Repr

/-- The rule-evaluation loop of `run` (main.rs lines 527-587), as a left
fold from an explicit accumulator `s` (the `operating_package_set`).
`catalog` is `api_package_set`; `ni` is lookup in `api_package_name_map`. -/
def resolveFrom (catalog : Finset String) (ni : String → Option String) :
    Finset String → List PackageRuleEnum → Except ResolveError (Finset String)
  | s, [] => Except.ok s
  | s, PackageRuleEnum.Regex rule :: rs =>
    match regexNew rule.pattern with
    | none => Except.error ResolveError.InvalidPattern
    | some re =>
      match rule.operation with
      | OperationEnum.Include => resolveFrom catalog ni (s ∪ regexMatched re catalog) rs
      | OperationEnum.Exclude => resolveFrom catalog ni (s \ regexMatched re catalog) rs
  | s, PackageRuleEnum.Single rule :: rs =>
    if rule.id ∈ catalog then
      match rule.operation with
      | OperationEnum.Include => resolveFrom catalog ni (insert rule.id s) rs
      | OperationEnum.Exclude => resolveFrom catalog ni (s.erase rule.id) rs
    else Except.error (ResolveError.UnknownPackageId rule.id (ni rule.id))

/-- The resolver entry point: fold over the configured rules starting from
the empty `operating_package_set` (main.rs line 527). -/
def resolveRules (catalog : Finset String) (ni : String → Option String)
    (rules : List PackageRuleEnum) : Except ResolveError (Finset String) :=
  resolveFrom catalog ni ∅ rules

/-! ### Catalog construction

`get_all_packages` returns `{ d: { results: [ { Id, Name, Mode? } ] } }`;
`run` then builds `api_package_set` (a `HashSet`, modelled as the fold of
`insert` below) and `api_package_name_map` (display name → comma-joined ids,
modelled as an association list built in iteration order). -/

/-- `APIResponseResult` from main.rs (the `Mode` field plays no role in the
modelled logic and is omitted). -/
structure PackageEntry where
  id : String
  name : String
  deriving DecidableEq, Repr

/-- `api_package_set`: insert every id of the listing into a set
(main.rs lines 513-516). -/
def catalogOfList (l : List String) : Finset String :=
  l.foldl (fun s x => insert x s) ∅

/-- One step of building `api_package_name_map`: on an occupied entry the
new id is appended after a comma, on a vacant entry the id is inserted
(main.rs lines 517-524). -/
def insertName (m : List (String × String)) (name id : String) :
    List (String × String) :=
  match m with
  | [] => [(name, id)]
  | (k, v) :: rest =>
    if k = name then (k, v ++ "," ++ id) :: rest
    else (k, v) :: insertName rest name id

/-- `api_package_name_map` built over the whole listing. -/
def buildNameIndex (entries : List PackageEntry) : List (String × String) :=
  entries.foldl (fun m e => insertName m e.name e.id) []

/-- Lookup in the display-name index (`api_package_name_map.get`). -/
def nameIndexLookup (entries : List PackageEntry) (n : String) : Option String :=
  List.lookup n (buildNameIndex entries)

/-- `Vec::from_iter(operating_package_set)`: the list of selected package
ids handed to the download loop (main.rs line 589).  A `HashSet` iterates
in an unspecified order; the model fixes the lexicographic one. -/
def packageList (s : Finset String) : List String :=
  s.sort (fun a b => a ≤ b)

/-! ### Credential secret resolution

Model of main.rs lines 380-456: the secret (`password`) is first taken from
the configured environment variable when one is configured and the variable
is present; when still absent and interactive input is allowed
(`!opts.no_input`), it is taken from the prompt; otherwise the run fails
("Could not use any password/secret", spec name `MissingCredential`).
`envVarName` is the configured variable name (for either credential
variant), `env` is the process environment, `promptValue` the value the
interactive prompt would return. -/

/-- Error of secret resolution. -/
inductive SecretError
  | MissingCredential
  deriving DecidableEq, Repr

/-- The secret-resolution logic of `run`. -/
def resolveSecret (envVarName : Option String) (env : String → Option String)
    (noInput : Bool) (promptValue : String) : Except SecretError String :=
  let password : Option String :=
    match envVarName with
    | some varkey => env varkey
    | none => none
  let password : Option String :=
    if ¬ noInput then
      match password with
      | none => some promptValue
      | some p => some p
    else password
  match password with
  | some p => Except.ok p
  | none => Except.error SecretError.MissingCredential

/-! ### Zip extraction path model

Extract mode (main.rs lines 258-284) writes each archive entry to
`data_dir.canonicalize()/package_id/artifact_id/enclosed_name(entry)`.
`enclosed_name` is the zip crate's sanitizer: it returns `None` for names
containing NUL, absolute names, and names whose `..` components would climb
above the archive root (tracked with a saturating-free depth counter);
the source calls `.unwrap()` on it, so a `None` aborts the run before any
write for that entry.  Paths are modelled lexically as component lists. -/

/-- A path component as produced by Rust's `Path::components` (the Windows
`Prefix` component cannot arise from slash paths on Unix and is omitted). -/
inductive PathComponent
  | RootDir
  | CurDir
  | ParentDir
  | Normal (s : String)
  deriving DecidableEq, Repr

/-- Interpret one slash-separated segment. -/
def segComponent (seg : List Char) : PathComponent :=
  if seg = ['.'] then PathComponent.CurDir
  else if seg = ['.', '.'] then PathComponent.ParentDir
  else PathComponent.Normal (String.mk seg)

/-- Split a character list at `/` separators. -/
def splitSegs : List Char → List (List Char)
  | [] => [[]]
  | c :: rest =>
    if c = '/' then [] :: splitSegs rest
    else
      match splitSegs rest with
      | [] => [[c]]
      | seg :: segs => (c :: seg) :: segs

/-- Split an entry name into components (`Path::components` over a
slash-separated name: empty segments are skipped, a leading `/` is a
`RootDir` component). -/
def parsePath (s : String) : List PathComponent :=
  let rel := ((splitSegs s.data).filter (fun seg => seg ≠ [])).map segComponent
  match s.data with
  | '/' :: _ => PathComponent.RootDir :: rel
  | _ => rel

/-- The depth scan of `enclosed_name`: `Normal` descends, `..` ascends and
must never take the depth below zero (`checked_sub`), `RootDir` (an
absolute name) is rejected outright. -/
def sanitizeDepth : Nat → List PathComponent → Option Nat
  | d, [] => some d
  | d, PathComponent.Normal _ :: rest => sanitizeDepth (d + 1) rest
  | d, PathComponent.CurDir :: rest => sanitizeDepth d rest
  | d, PathComponent.ParentDir :: rest =>
    match d with
    | 0 => none
    | e + 1 => sanitizeDepth e rest
  | _, PathComponent.RootDir :: _ => none

/-- Model of `ZipFile::enclosed_name`: reject names containing NUL and
names failing the depth scan; otherwise return the components. -/
def enclosedName (entryName : String) : Option (List PathComponent) :=
  if entryName.data.contains (Char.ofNat 0) then none
  else
    match sanitizeDepth 0 (parsePath entryName) with
    | none => none
    | some _ => some (parsePath entryName)

/-- Lexical resolution of a component list against an accumulated absolute
path (how the OS resolves the joined path when the written directories are
fresh, as `create_dir_all` makes them): `..` removes the last segment,
`.` is skipped, an absolute component restarts from the root. -/
def lexResolve (acc : List String) : List PathComponent → List String
  | [] => acc
  | PathComponent.Normal s :: rest => lexResolve (acc ++ [s]) rest
  | PathComponent.CurDir :: rest => lexResolve acc rest
  | PathComponent.ParentDir :: rest => lexResolve acc.dropLast rest
  | PathComponent.RootDir :: rest => lexResolve [] rest

/-- The on-disk path an archive entry is written to, given the base
directory `base = <data_root>/<package_id>/<artifact_id>` as a segment
list; `none` means the entry is rejected (the source panics on it, so no
file is written). -/
def entryWritePath (base : List String) (entryName : String) :
    Option (List String) :=
  match enclosedName entryName with
  | none => none
  | some comps => some (lexResolve base comps)

/-! ### Sync pipeline call traces

Abstract server + the HTTP call order of `run`/`process_package`
(main.rs lines 165-289 and 511-597), used for the temporal property: each
function returns its result together with the list of API calls it issued. -/

/-- One HTTP call of the sync phase. -/
inductive ApiCall
  | CatalogList
  | ArtifactList (packageId : String)
  | ArtifactDownload (artifactId : String)
  deriving DecidableEq, Repr

/-- Errors of the sync phase (spec taxonomy names). -/
inductive RunError
  | CatalogFetchFailed
  | ArtifactListFailed
  | ArtifactDownloadFailed
  | Resolve (e : ResolveError)
  deriving DecidableEq, Repr

/-- Abstract tenant: status and parsed body of each endpoint.  `none` for a
body models an unparsable response. -/
structure Server where
  catalogSuccess : Bool
  catalogResults : Option (List PackageEntry)
  artifactListSuccess : String → Bool
  artifactListResults : String → Option (List String)
  artifactDownloadSuccess : String → Bool

/-- `get_all_packages` (main.rs lines 291-337): non-success status or an
unparsable body is a fatal catalog-fetch failure. -/
def getAllPackages (srv : Server) : Except RunError (List PackageEntry) :=
  if ¬ srv.catalogSuccess then Except.error RunError.CatalogFetchFailed
  else
    match srv.catalogResults with
    | none => Except.error RunError.CatalogFetchFailed
    | some entries => Except.ok entries

/-- The artifact loop of `process_package`: one download call per artifact,
aborting on the first non-success status. -/
def downloadArtifacts (srv : Server) : List String → Except RunError Unit × List ApiCall
  | [] => (Except.ok (), [])
  | a :: rest =>
    if srv.artifactDownloadSuccess a then
      let step := downloadArtifacts srv rest
      (step.1, ApiCall.ArtifactDownload a :: step.2)
    else (Except.error RunError.ArtifactDownloadFailed, [ApiCall.ArtifactDownload a])

/-- `process_package` (main.rs lines 165-289): list the package's
artifacts, then download each. -/
def processPackage (srv : Server) (packageId : String) :
    Except RunError Unit × List ApiCall :=
  if ¬ srv.artifactListSuccess packageId then
    (Except.error RunError.ArtifactListFailed, [ApiCall.ArtifactList packageId])
  else
    match srv.artifactListResults packageId with
    | none => (Except.error RunError.ArtifactListFailed, [ApiCall.ArtifactList packageId])
    | some arts =>
      let step := downloadArtifacts srv arts
      (step.1, ApiCall.ArtifactList packageId :: step.2)

/-- The package loop of `run` (lines 595-597): process each selected
package in order, aborting the queue on the first failure. -/
def processPackages (srv : Server) : List String → Except RunError Unit × List ApiCall
  | [] => (Except.ok (), [])
  | p :: rest =>
    match processPackage srv p with
    | (Except.ok _, calls) =>
      let step := processPackages srv rest
      (step.1, calls ++ step.2)
    | (Except.error e, calls) => (Except.error e, calls)

/-- The sync phase of `run` from the catalog fetch on (lines 511-597):
fetch the catalog, build the id set and name index, resolve the filter
rules, then download every selected package. -/
def runSync (srv : Server) (rules : List PackageRuleEnum) :
    Except RunError Unit × List ApiCall :=
  match getAllPackages srv with
  | Except.error e => (Except.error e, [ApiCall.CatalogList])
  | Except.ok entries =>
    let catalog := catalogOfList (entries.map (fun e => e.id))
    let ni := nameIndexLookup entries
    match resolveRules catalog ni rules with
    | Except.error e => (Except.error (RunError.Resolve e), [ApiCall.CatalogList])
    | Except.ok s =>
      let step := processPackages srv (packageList s)
      (step.1, ApiCall.CatalogList :: step.2)

/-! ## Helper lemmas -/

/-- The pattern `.*` compiles to an unanchored starred dot. -/
theorem regexNew_dotStar : regexNew ".*" = some ⟨false, [RItem.StarDot]⟩ := by
  rfl

/-- `matchItems [StarDot]` accepts every character list. -/
theorem matchItems_starDot (cs : List Char) :
    matchItems [RItem.StarDot] cs = true := by
  cases cs with
  | nil => simp [matchItems]
  | cons x xs => simp [matchItems]

/-- `.*` matches every string, as the regex crate's unanchored
`is_match` does. -/
theorem isMatch_dotStar (s : String) :
    isMatch ⟨false, [RItem.StarDot]⟩ s = true := by
  unfold isMatch
  cases s.data with
  | nil => simp [searchFrom, matchItems_starDot]
  | cons x xs => simp [searchFrom, matchItems_starDot]

/-- The subset of the catalog matched by `.*` is the whole catalog. -/
theorem regexMatched_dotStar (c : Finset String) :
    regexMatched ⟨false, [RItem.StarDot]⟩ c = c := by
  unfold regexMatched
  exact Finset.filter_true_of_mem (fun x _ => isMatch_dotStar x)

/-- A matched set is always a subset of the catalog it was filtered from. -/
theorem regexMatched_subset (re : CRegex) (c : Finset String) :
    regexMatched re c ⊆ c :=
  Finset.filter_subset _ c

/-- Any successful run of the rule fold keeps the operating set inside the
catalog, provided the starting set was inside it. -/
theorem resolveFrom_subset (c : Finset String) (ni : String → Option String) :
    ∀ (rules : List PackageRuleEnum) (s out : Finset String),
      resolveFrom c ni s rules = Except.ok out → s ⊆ c → out ⊆ c := by
  intro rules
  induction rules with
  | nil =>
    intro s out h hs
    simp only [resolveFrom, Except.ok.injEq] at h
    exact h ▸ hs
  | cons r rs ih =>
    intro s out h hs
    cases r with
    | Regex rule =>
      obtain ⟨op, pat⟩ := rule
      cases hre : regexNew pat with
      | none => simp [resolveFrom, hre] at h
      | some re =>
        cases op with
        | Include =>
          simp only [resolveFrom, hre] at h
          exact ih _ _ h (Finset.union_subset hs (regexMatched_subset re c))
        | Exclude =>
          simp only [resolveFrom, hre] at h
          exact ih _ _ h (Finset.Subset.trans Finset.sdiff_subset hs)
    | Single rule =>
      by_cases hm : rule.id ∈ c
      · cases hop : rule.operation with
        | Include =>
          simp only [resolveFrom, if_pos hm, hop] at h
          exact ih _ _ h (Finset.insert_subset_iff.mpr ⟨hm, hs⟩)
        | Exclude =>
          simp only [resolveFrom, if_pos hm, hop] at h
          exact ih _ _ h (Finset.Subset.trans (Finset.erase_subset _ _) hs)
      · simp [resolveFrom, if_neg hm] at h

/-- Folding `insert` over a listing (how `api_package_set` is built) gives
the union with the accumulator. -/
theorem foldl_insert_eq_union (l : List String) :
    ∀ acc : Finset String,
      l.foldl (fun s x => insert x s) acc = acc ∪ l.toFinset := by
  induction l with
  | nil => intro acc; simp
  | cons x xs ih =>
    intro acc
    simp only [List.foldl_cons, ih, List.toFinset_cons, Finset.insert_union,
      Finset.union_insert]

/-- `api_package_set` is the finite set of listed identifiers. -/
theorem catalogOfList_eq_toFinset (l : List String) :
    catalogOfList l = l.toFinset := by
  unfold catalogOfList
  rw [foldl_insert_eq_union]
  exact Finset.empty_union _

/-- Dropping the last element of an appended list only touches the right
part when that part is nonempty. -/
theorem dropLast_append_left (base extra : List String) (hne : extra ≠ []) :
    (base ++ extra).dropLast = base ++ extra.dropLast := by
  cases extra with
  | nil => exact absurd rfl hne
  | cons e es => exact List.dropLast_append_cons

/-- Shifting lemma for lexical resolution: when the depth scan starting at
the length of `extra` succeeds, resolving on top of `base ++ extra` never
pops into `base`. -/
theorem lexResolve_shift (comps : List PathComponent) :
    ∀ base extra : List String, sanitizeDepth extra.length comps ≠ none →
      lexResolve (base ++ extra) comps = base ++ lexResolve extra comps := by
  induction comps with
  | nil => intro base extra _; rfl
  | cons cmp rest ih =>
    intro base extra h
    cases cmp with
    | Normal s =>
      have h' : sanitizeDepth (extra ++ [s]).length rest ≠ none := by
        simpa [sanitizeDepth, List.length_append] using h
      show lexResolve (base ++ extra ++ [s]) rest = base ++ lexResolve (extra ++ [s]) rest
      rw [List.append_assoc]
      exact ih base (extra ++ [s]) h'
    | CurDir =>
      exact ih base extra (by simpa [sanitizeDepth] using h)
    | ParentDir =>
      cases hext : extra with
      | nil =>
        exfalso
        apply h
        simp [hext, sanitizeDepth]
      | cons e es =>
        subst hext
        have h' : sanitizeDepth (e :: es).dropLast.length rest ≠ none := by
          simpa [sanitizeDepth, List.length_dropLast] using h
        show lexResolve ((base ++ e :: es).dropLast) rest =
          base ++ lexResolve ((e :: es).dropLast) rest
        rw [dropLast_append_left base (e :: es) (by simp)]
        exact ih base (e :: es).dropLast h'
    | RootDir =>
      exfalso
      apply h
      simp [sanitizeDepth]

/-! ## Claims -/

/-- C1: the package selection resolver is a strict left fold over the rule
list starting from the empty set; a regex rule that compiles matches
against the full static catalog (never the current working set), and
include unions the matched subset into the operating set while exclude
takes the set difference. -/
theorem resolver_fold_regex_semantics (c : Finset String)
    (ni : String → Option String) (s : Finset String) (pat : String)
    (rs rules : List PackageRuleEnum) (re : CRegex)
    (h : regexNew pat = some re) :
    resolveRules c ni rules = resolveFrom c ni ∅ rules ∧
    resolveFrom c ni s (PackageRuleEnum.Regex ⟨OperationEnum.Include, pat⟩ :: rs) =
      resolveFrom c ni (s ∪ regexMatched re c) rs ∧
    resolveFrom c ni s (PackageRuleEnum.Regex ⟨OperationEnum.Exclude, pat⟩ :: rs) =
      resolveFrom c ni (s \ regexMatched re c) rs := by
  refine ⟨rfl, ?_, ?_⟩ <;> simp [resolveFrom, h]

/-- Witness for C1 at the catalog `{"PKG1"}` and the pattern `.*`. -/
theorem resolver_fold_regex_semantics_witness :
    resolveRules {"PKG1"} (fun _ => none) [] =
      resolveFrom {"PKG1"} (fun _ => none) ∅ [] ∧
    resolveFrom {"PKG1"} (fun _ => none) ∅
        [PackageRuleEnum.Regex ⟨OperationEnum.Include, ".*"⟩] =
      resolveFrom {"PKG1"} (fun _ => none)
        (∅ ∪ regexMatched ⟨false, [RItem.StarDot]⟩ {"PKG1"}) [] ∧
    resolveFrom {"PKG1"} (fun _ => none) ∅
        [PackageRuleEnum.Regex ⟨OperationEnum.Exclude, ".*"⟩] =
      resolveFrom {"PKG1"} (fun _ => none)
        (∅ \ regexMatched ⟨false, [RItem.StarDot]⟩ {"PKG1"}) [] :=
  resolver_fold_regex_semantics {"PKG1"} (fun _ => none) ∅ ".*" [] []
    ⟨false, [RItem.StarDot]⟩ regexNew_dotStar

/-- C2: in extract mode, every archive entry that is written lands inside
`<data_root>/<package_id>/<artifact_id>/`: whenever the sanitizer accepts
an entry name, the resolved write path extends the target directory, and
an entry it rejects (such as `../../evil` or an absolute name) produces no
write at all. -/
theorem extract_writes_stay_inside (dataRoot : List String) (pkg art : String)
    (entryName : String) (p : List String)
    (h : entryWritePath (dataRoot ++ [pkg, art]) entryName = some p) :
    (dataRoot ++ [pkg, art]) <+: p := by
  unfold entryWritePath enclosedName at h
  by_cases hnul : entryName.data.contains (Char.ofNat 0) = true
  · rw [if_pos hnul] at h
    exact absurd h (by simp)
  · rw [if_neg hnul] at h
    cases hs : sanitizeDepth 0 (parsePath entryName) with
    | none =>
      rw [hs] at h
      exact absurd h (by simp)
    | some d =>
      rw [hs] at h
      simp only [Option.some.injEq] at h
      have hshift := lexResolve_shift (parsePath entryName)
        (dataRoot ++ [pkg, art]) [] (by simp [hs])
      rw [List.append_nil] at hshift
      exact ⟨lexResolve [] (parsePath entryName), by rw [← h, hshift]⟩

/-- Witness for C2: the entry `dir/b.txt` of artifact `Art1` in package
`PKG1` is written under the artifact directory. -/
theorem extract_writes_stay_inside_witness :
    (["data"] ++ ["PKG1", "Art1"]) <+:
      ["data", "PKG1", "Art1", "dir", "b.txt"] :=
  extract_writes_stay_inside ["data"] "PKG1" "Art1" "dir/b.txt"
    ["data", "PKG1", "Art1", "dir", "b.txt"] (by decide)

/-- C3: rule order changes the result: over any catalog containing `a`,
excluding `a` before the include-all regex leaves `a` selected, while
excluding it after removes it. -/
theorem rule_order_changes_result (c : Finset String) (a : String)
    (ni : String → Option String) (h : a ∈ c) :
    resolveRules c ni
        [PackageRuleEnum.Single ⟨a, OperationEnum.Exclude⟩,
         PackageRuleEnum.Regex ⟨OperationEnum.Include, ".*"⟩] = Except.ok c ∧
    a ∈ c ∧
    resolveRules c ni
        [PackageRuleEnum.Regex ⟨OperationEnum.Include, ".*"⟩,
         PackageRuleEnum.Single ⟨a, OperationEnum.Exclude⟩] =
      Except.ok (c.erase a) ∧
    a ∉ c.erase a := by
  refine ⟨?_, h, ?_, Finset.not_mem_erase a c⟩
  · simp [resolveRules, resolveFrom, if_pos h, regexNew_dotStar,
      regexMatched_dotStar, Finset.erase_empty, Finset.empty_union]
  · simp [resolveRules, resolveFrom, if_pos h, regexNew_dotStar,
      regexMatched_dotStar, Finset.empty_union]

/-- Witness for C3 at the catalog `{"a"}`. -/
theorem rule_order_changes_result_witness :
    resolveRules {"a"} (fun _ => none)
        [PackageRuleEnum.Single ⟨"a", OperationEnum.Exclude⟩,
         PackageRuleEnum.Regex ⟨OperationEnum.Include, ".*"⟩] =
      Except.ok {"a"} ∧
    "a" ∈ ({"a"} : Finset String) ∧
    resolveRules {"a"} (fun _ => none)
        [PackageRuleEnum.Regex ⟨OperationEnum.Include, ".*"⟩,
         PackageRuleEnum.Single ⟨"a", OperationEnum.Exclude⟩] =
      Except.ok (({"a"} : Finset String).erase "a") ∧
    "a" ∉ ({"a"} : Finset String).erase "a" :=
  rule_order_changes_result {"a"} "a" (fun _ => none) (by decide)

/-- C4: a single rule whose identifier is not in the catalog fails the
whole resolution with `UnknownPackageId`, whatever its operation; the
error carries the display-name-index lookup of the identifier as the
diagnostic suggestion.  In particular the identifier is never added to the
operating set, since no set is produced at all. -/
theorem single_unknown_id_fails (c : Finset String)
    (ni : String → Option String) (s : Finset String) (rule : PackageSingle)
    (rs : List PackageRuleEnum) (h : rule.id ∉ c) :
    resolveFrom c ni s (PackageRuleEnum.Single rule :: rs) =
      Except.error (ResolveError.UnknownPackageId rule.id (ni rule.id)) := by
  simp [resolveFrom, if_neg h]

/-- Witness for C4: excluding the absent id `"a"` over an empty catalog,
with a name index that knows `"a"` as a display name. -/
theorem single_unknown_id_fails_witness :
    resolveFrom (∅ : Finset String)
        (fun n => if n = "a" then some "PKG_A" else none) ∅
        [PackageRuleEnum.Single ⟨"a", OperationEnum.Exclude⟩] =
      Except.error (ResolveError.UnknownPackageId "a" (some "PKG_A")) := by
  have h := single_unknown_id_fails (∅ : Finset String)
    (fun n => if n = "a" then some "PKG_A" else none) ∅
    ⟨"a", OperationEnum.Exclude⟩ [] (by decide)
  simpa using h

/-- C5: whenever resolution succeeds, the final operating set is a subset
of the catalog identifier set. -/
theorem resolve_subset_catalog (c : Finset String)
    (ni : String → Option String) (rules : List PackageRuleEnum)
    (out : Finset String) (h : resolveRules c ni rules = Except.ok out) :
    out ⊆ c :=
  resolveFrom_subset c ni rules ∅ out h (Finset.empty_subset c)

/-- Witness for C5 on a concrete catalog and rule list. -/
theorem resolve_subset_catalog_witness :
    ({"PKG1"} : Finset String) ⊆ {"PKG1", "PKG2"} :=
  resolve_subset_catalog {"PKG1", "PKG2"} (fun _ => none)
    [PackageRuleEnum.Single ⟨"PKG1", OperationEnum.Include⟩] {"PKG1"}
    (by decide)

/-- C6 counterexample: a single exclude whose identifier is absent from the
operating set is NOT always a no-op — when the identifier is also absent
from the catalog, the id-existence check (which runs before the operation
match) makes resolution fail with `UnknownPackageId` instead of
continuing. -/
theorem single_exclude_unknown_id_errors :
    resolveRules (∅ : Finset String) (fun _ => none)
        [PackageRuleEnum.Single ⟨"a", OperationEnum.Exclude⟩] =
      Except.error (ResolveError.UnknownPackageId "a" none) ∧
    resolveRules (∅ : Finset String) (fun _ => none)
        [PackageRuleEnum.Single ⟨"a", OperationEnum.Exclude⟩] ≠
      Except.ok (∅ : Finset String) := by
  constructor
  · decide
  · decide

/-- C6 (amended): a single exclude rule whose identifier is in the catalog
but not in the current operating set is a no-op, not an error: resolution
continues with the operating set unchanged. -/
theorem single_exclude_absent_noop (c : Finset String)
    (ni : String → Option String) (s : Finset String) (a : String)
    (rs : List PackageRuleEnum) (hc : a ∈ c) (hs : a ∉ s) :
    resolveFrom c ni s (PackageRuleEnum.Single ⟨a, OperationEnum.Exclude⟩ :: rs) =
      resolveFrom c ni s rs := by
  simp [resolveFrom, if_pos hc, Finset.erase_eq_of_not_mem hs]

/-- Witness for amended C6: excluding catalog member `"b"`, absent from
the operating set `{"a"}`, leaves the fold unchanged. -/
theorem single_exclude_absent_noop_witness :
    resolveFrom ({"a", "b"} : Finset String) (fun _ => none) {"a"}
        [PackageRuleEnum.Single ⟨"b", OperationEnum.Exclude⟩] =
      resolveFrom ({"a", "b"} : Finset String) (fun _ => none) {"a"} [] :=
  single_exclude_absent_noop {"a", "b"} (fun _ => none) {"a"} "b" []
    (by decide) (by decide)

/-- C10: the list of packages handed to the download loop has no duplicate
identifiers whenever resolution succeeds (the operating set is a set, so
overlapping rules cannot produce repeats). -/
theorem package_list_nodup (c : Finset String) (ni : String → Option String)
    (rules : List PackageRuleEnum) (s : Finset String)
    (_h : resolveRules c ni rules = Except.ok s) :
    (packageList s).Nodup := by
  unfold packageList
  exact Finset.sort_nodup _ s

/-- Witness for C10: two rules selecting the same package still yield a
duplicate-free list. -/
theorem package_list_nodup_witness :
    (packageList {"PKG1", "PKG2"}).Nodup :=
  package_list_nodup {"PKG1", "PKG2"} (fun _ => none)
    [PackageRuleEnum.Single ⟨"PKG1", OperationEnum.Include⟩,
     PackageRuleEnum.Single ⟨"PKG2", OperationEnum.Include⟩,
     PackageRuleEnum.Single ⟨"PKG1", OperationEnum.Include⟩]
    {"PKG1", "PKG2"} (by simp [resolveRules, resolveFrom]; decide)

/-- C7 counterexample: the code takes the secret from the configured
environment variable whenever the variable is PRESENT, including when its
value is empty (`env::var` returns `Ok("")` then) — it does not fall
through to the prompt or to `MissingCredential` as "present and non-empty"
would require. -/
theorem secret_empty_env_var_used :
    resolveSecret (some "CPI_PASS")
        (fun k => if k = "CPI_PASS" then some "" else none) true "prompted" =
      Except.ok "" ∧
    resolveSecret (some "CPI_PASS")
        (fun k => if k = "CPI_PASS" then some "" else none) true "prompted" ≠
      Except.error SecretError.MissingCredential := by
  constructor
  · decide
  · decide

/-- C7 (amended): secret resolution follows a fixed source order: the
secret is the value of the configured environment variable whenever that
variable is present (even when its value is empty); otherwise, when
interactive input is permitted, the secret comes from the prompt;
otherwise resolution fails with `MissingCredential`. -/
theorem resolveSecret_source_order (envVarName : Option String)
    (env : String → Option String) (noInput : Bool) (promptValue : String) :
    resolveSecret envVarName env noInput promptValue =
      match envVarName.bind env, noInput with
      | some p, _ => Except.ok p
      | none, false => Except.ok promptValue
      | none, true => Except.error SecretError.MissingCredential := by
  rcases envVarName with _ | k
  · cases noInput <;> rfl
  · rcases henv : env k with _ | v <;> cases noInput <;>
      simp [resolveSecret, henv]

/-- C8: resolution is deterministic and depends on the catalog only as a
set: listings that are permutations of each other (any iteration or
construction order of the id set) resolve every rule list identically. -/
theorem resolve_deterministic (l₁ l₂ : List String)
    (ni : String → Option String) (rules : List PackageRuleEnum)
    (h : l₁.Perm l₂) :
    resolveRules (catalogOfList l₁) ni rules =
      resolveRules (catalogOfList l₂) ni rules := by
  rw [catalogOfList_eq_toFinset, catalogOfList_eq_toFinset,
    List.toFinset_eq_of_perm l₁ l₂ h]

/-- Witness for C8: the listings `["a", "b"]` and `["b", "a"]`. -/
theorem resolve_deterministic_witness :
    resolveRules (catalogOfList ["a", "b"]) (fun _ => none) [] =
      resolveRules (catalogOfList ["b", "a"]) (fun _ => none) [] :=
  resolve_deterministic ["a", "b"] ["b", "a"] (fun _ => none) []
    (List.Perm.swap "b" "a" [])

/-- C9: a non-success catalog-listing status aborts the run with
`CatalogFetchFailed` before any package processing: the call trace is
exactly the catalog call, so no artifact-list or artifact-download call is
ever issued. -/
theorem catalog_fetch_failure_aborts (srv : Server)
    (rules : List PackageRuleEnum) (h : srv.catalogSuccess = false) :
    runSync srv rules =
      (Except.error RunError.CatalogFetchFailed, [ApiCall.CatalogList]) := by
  simp [runSync, getAllPackages, h]

/-- Witness for C9: a server whose catalog call fails although packages
and artifacts would be available. -/
theorem catalog_fetch_failure_aborts_witness :
    runSync
        { catalogSuccess := false
          catalogResults := some [⟨"PKG1", "Package One"⟩]
          artifactListSuccess := fun _ => true
          artifactListResults := fun _ => some ["Art1"]
          artifactDownloadSuccess := fun _ => true }
        [PackageRuleEnum.Regex ⟨OperationEnum.Include, ".*"⟩] =
      (Except.error RunError.CatalogFetchFailed, [ApiCall.CatalogList]) :=
  catalog_fetch_failure_aborts _ _ rfl

end CpiSync
